import Mathlib

/-!
Shallow embedding of the blokus_rust core (src/game.rs, src/main.rs).

Modelling conventions:
* Rust `u16` values are `ℕ`; the arithmetic operators that can wrap in a
  release build are written with an explicit `% 65536` (`u16add`, `u16sub`).
  Theorems carry `< 65536` range hypotheses where a claim's truth depends on
  the `u16` value range.
* The `f32` pivot arithmetic of `Position::rotate_around_pivot` is modelled
  over `ℚ`: every value reaching it in the program (a half-integer pivot and
  `u16`-ranged integers, all far below 2^24) is represented exactly by `f32`,
  and doubling, subtraction and the saturating-truncating `as u16` cast are
  exact on those values, so `ℚ` with an explicit floor/clamp reproduces the
  Rust semantics. The cast saturates: negative values go to 0, values above
  65535 go to 65535 (`f32ToU16`).
* Rust panics (`.unwrap()` on an `Err`, `Vec::remove` / index out of range,
  integer overflow in a debug build) are modelled by an outer `Option` layer:
  `none` is a panic, `some (Except.error e)` a returned `Err`, and
  `some (Except.ok v)` a normal result.
* `Vec<Vec<State>>` is `List (List State)`; reading through
  `get_state_on_position` is always preceded by the source's own bounds check
  against `width`/`height`, exactly as in Rust.
-/

namespace BlokusRust

/-- Wrapping `u16` addition (release-build semantics of Rust `+` on `u16`). -/
def u16add (a b : ℕ) : ℕ := (a + b) % 65536

/-- Wrapping `u16` subtraction (release-build semantics of Rust `-` on `u16`).
For `b ≤ a < 65536` this is plain subtraction. -/
def u16sub (a b : ℕ) : ℕ := (a + (65536 - b % 65536)) % 65536

/-- Rust's `as u16` cast applied to an `f32` value: truncate toward zero and
saturate into `[0, 65535]`.  On `ℚ` (exact for all values the program builds)
this is `min 65535 (max 0 ⌊q⌋)`; truncation toward zero agrees with `⌊·⌋` on
the nonnegative range and both clamp to 0 below it. -/
def f32ToU16 (q : ℚ) : ℕ := min 65535 (Int.toNat ⌊q⌋)

deriving instance DecidableEq for Except

/-- `struct Position { x: u16, y: u16 }` -/
structure Position where
  x : ℕ
  y : ℕ
deriving DecidableEq, Repr

/-- `impl Add for &Position` (componentwise `u16` addition). -/
def Position.add (a b : Position) : Position :=
  ⟨u16add a.x b.x, u16add a.y b.y⟩

/-- `impl Sub for &Position` (componentwise `u16` subtraction). -/
def Position.sub (a b : Position) : Position :=
  ⟨u16sub a.x b.x, u16sub a.y b.y⟩

/-- `Position::check_within_bounds`. -/
def Position.check_within_bounds (p : Position) (width height : ℕ) :
    Except String Unit :=
  if p.x ≥ width ∨ p.y ≥ height then
    Except.error ("Out of bounds (" ++ toString p.x ++ ", " ++ toString p.y ++ ")")
  else
    Except.ok ()

/-- `Position::rotate_around_pivot`:
`self.x = (pivot + pivot - self.y as f32) as u16; self.y = old x`. -/
def Position.rotate_around_pivot (p : Position) (pivot_position : ℚ) : Position :=
  ⟨f32ToU16 (pivot_position + pivot_position - (p.y : ℚ)), p.x⟩

/-- `enum State { Free, Occupied(usize) }` -/
inductive State where
  | Free : State
  | Occupied : ℕ → State
deriving DecidableEq, Repr

/-- `struct Piece` (field `pivot: f32` is modelled over `ℚ`, see file header). -/
structure Piece where
  blocks : List Position
  pivot : ℚ
  num_lines : ℕ
  num_columns : ℕ
  bounding_box_offset : Position
deriving DecidableEq, Repr

/-- `Piece::min_x` (`.min().unwrap()`; the `unwrap` panics on an empty block
list, which `Piece::new` never produces — the empty case is given default 0). -/
def Piece.min_x (blocks : List Position) : ℕ :=
  ((blocks.map Position.x).min?).getD 0

/-- `Piece::min_y`. -/
def Piece.min_y (blocks : List Position) : ℕ :=
  ((blocks.map Position.y).min?).getD 0

/-- `Piece::calculate_num_lines`: `(max_y - min_y) + 1` over `u16`. -/
def Piece.calculate_num_lines (blocks : List Position) (min_y : ℕ) : ℕ :=
  u16add (u16sub (((blocks.map Position.y).max?).getD 0) min_y) 1

/-- `Piece::calculate_num_columns`: `(max_x - min_x) + 1` over `u16`. -/
def Piece.calculate_num_columns (blocks : List Position) (min_x : ℕ) : ℕ :=
  u16add (u16sub (((blocks.map Position.x).max?).getD 0) min_x) 1

/-- `Piece::new`. -/
def Piece.new (blocks : List Position) (pivot : ℚ) : Piece :=
  { blocks := blocks
    pivot := pivot
    num_lines := Piece.calculate_num_lines blocks (Piece.min_y blocks)
    num_columns := Piece.calculate_num_columns blocks (Piece.min_x blocks)
    bounding_box_offset := ⟨Piece.min_x blocks, Piece.min_y blocks⟩ }

/-- The Rust method `Piece::blocks()`: every stored block translated by
`-bounding_box_offset` (named differently because `blocks` is the field). -/
def Piece.normalizedBlocks (p : Piece) : List Position :=
  p.blocks.map (fun b => b.sub p.bounding_box_offset)

/-- `Piece::rotate`: rotate every block around the pivot, swap
`num_lines`/`num_columns`, recompute `bounding_box_offset`. -/
def Piece.rotate (p : Piece) : Piece :=
  let blocks := p.blocks.map (fun b => b.rotate_around_pivot p.pivot)
  { blocks := blocks
    pivot := p.pivot
    num_lines := p.num_columns
    num_columns := p.num_lines
    bounding_box_offset := ⟨Piece.min_x blocks, Piece.min_y blocks⟩ }

/-- `n` successive calls of `Piece::rotate` (`(0..n).for_each(|_| piece.rotate())`). -/
def rotateN (n : ℕ) (p : Piece) : Piece :=
  Piece.rotate^[n] p

/-- `struct Board { width: u16, height: u16, tiles: Vec<Vec<State>> }` -/
structure Board where
  width : ℕ
  height : ℕ
  tiles : List (List State)
deriving DecidableEq, Repr

/-- `Board::new`: all cells `Free`. -/
def Board.new (width height : ℕ) : Board :=
  ⟨width, height, List.replicate height (List.replicate width State.Free)⟩

/-- `Board::get_state_on_position`: bounds check, then `tiles[y][x]`.  The raw
indexing is total here (default `Free`); for boards built by `Board.new` and
its placement steps the index is always valid once the bounds check passed. -/
def Board.get_state_on_position (b : Board) (pos : Position) : Except String State :=
  match pos.check_within_bounds b.width b.height with
  | Except.error e => Except.error e
  | Except.ok _ => Except.ok ((((b.tiles.get? pos.y).bind (fun row => row.get? pos.x))).getD State.Free)

/-- `Board::occupy_position` (the Rust version returns `Ok(())` unconditionally;
out-of-range writes cannot occur on the boards the program builds). -/
def Board.occupy_position (b : Board) (pos : Position) (player_index : ℕ) : Board :=
  { b with tiles := b.tiles.set pos.y (((b.tiles.get? pos.y).getD []).set pos.x (State.Occupied player_index)) }

/-- `Board::block_position_is_not_occupied`; the source `.unwrap()`s the state
read, so an out-of-bounds position is a panic (`none`). -/
def Board.block_position_is_not_occupied (b : Board) (pos : Position) : Option Bool :=
  match b.get_state_on_position pos with
  | Except.error _ => none
  | Except.ok State.Free => some true
  | Except.ok (State.Occupied _) => some false

/-- One guarded-neighbour probe, the fragment repeated in the source's
adjacency checks: when the edge guard holds, read the neighbour with an
`.unwrap()` (`none` = panic) and report whether it is occupied by
`player_index`; when the guard fails, report no hit. -/
def Board.neighborHit (b : Board) (guard : Bool) (q : Position) (player_index : ℕ) :
    Option Bool :=
  if guard then
    match b.get_state_on_position q with
    | Except.error _ => none
    | Except.ok (State.Occupied i) => some (decide (i = player_index))
    | Except.ok State.Free => some false
  else some false

/-- Sequencing of the source's guarded probes: a panic propagates, a hit takes
the early `return` value `hitVal`, otherwise control falls through to `rest`. -/
def seqCheck (c : Option Bool) (hitVal : Bool) (rest : Option Bool) : Option Bool :=
  match c with
  | none => none
  | some true => some hitVal
  | some false => rest

/-- `Board::block_is_not_adjacent_to_other_blocks_from_same_player`: the four
orthogonal neighbours, each guarded against the grid edge; an own-coloured
neighbour is an early `return false`, falling through all four returns `true`. -/
def Board.block_is_not_adjacent_to_other_blocks_from_same_player
    (b : Board) (pos : Position) (player_index : ℕ) : Option Bool :=
  seqCheck (b.neighborHit (decide (0 < pos.x)) ⟨pos.x - 1, pos.y⟩ player_index) false
  (seqCheck (b.neighborHit (decide (pos.x < u16sub b.width 1)) ⟨pos.x + 1, pos.y⟩ player_index) false
  (seqCheck (b.neighborHit (decide (0 < pos.y)) ⟨pos.x, pos.y - 1⟩ player_index) false
  (seqCheck (b.neighborHit (decide (pos.y < u16sub b.height 1)) ⟨pos.x, pos.y + 1⟩ player_index) false
  (some true))))

/-- `Board::block_is_diagonally_adjacent_to_block_from_same_player`: the four
diagonal neighbours, each guarded on both axes; an own-coloured neighbour is an
early `return true`, falling through all four returns `false`. -/
def Board.block_is_diagonally_adjacent_to_block_from_same_player
    (b : Board) (pos : Position) (player_index : ℕ) : Option Bool :=
  seqCheck (b.neighborHit (decide (0 < pos.x ∧ 0 < pos.y)) ⟨pos.x - 1, pos.y - 1⟩ player_index) true
  (seqCheck (b.neighborHit (decide (pos.x < u16sub b.width 1 ∧ 0 < pos.y)) ⟨pos.x + 1, pos.y - 1⟩ player_index) true
  (seqCheck (b.neighborHit (decide (0 < pos.x ∧ pos.y < u16sub b.height 1)) ⟨pos.x - 1, pos.y + 1⟩ player_index) true
  (seqCheck (b.neighborHit (decide (pos.x < u16sub b.width 1 ∧ pos.y < u16sub b.height 1)) ⟨pos.x + 1, pos.y + 1⟩ player_index) true
  (some false))))

/-- `Board::block_touches_corner`. -/
def Board.block_touches_corner (b : Board) (pos : Position) : Bool :=
  if pos.x = 0 ∧ pos.y = 0 then true
  else if pos.x = u16sub b.width 1 ∧ pos.y = 0 then true
  else if pos.x = 0 ∧ pos.y = u16sub b.height 1 then true
  else if pos.x = u16sub b.width 1 ∧ pos.y = u16sub b.height 1 then true
  else false

/-- `Iterator::all` over an `Option`-valued (panicking) predicate, with Rust's
left-to-right short-circuit evaluation. -/
def optionAll (f : α → Option Bool) : List α → Option Bool
  | [] => some true
  | a :: l =>
    match f a with
    | none => none
    | some false => some false
    | some true => optionAll f l

/-- `Iterator::find(pred).is_some()` over an `Option`-valued (panicking)
predicate, with Rust's left-to-right short-circuit evaluation. -/
def optionAny (f : α → Option Bool) : List α → Option Bool
  | [] => some false
  | a :: l =>
    match f a with
    | none => none
    | some true => some true
    | some false => optionAny f l

/-- The per-block conjunct of `piece_can_be_placed`'s `all` scan:
`block_position_is_not_occupied(p) && block_is_not_adjacent_...(p)`, with
Rust's `&&` short-circuit (the adjacency check only runs on a free cell). -/
def Board.blockGenerallyOk (b : Board) (player_index : ℕ) (pos : Position) : Option Bool :=
  match b.block_position_is_not_occupied pos with
  | none => none
  | some false => some false
  | some true => b.block_is_not_adjacent_to_other_blocks_from_same_player pos player_index

/-- `Board::piece_can_be_placed`.  As in the source, the "generally placeable"
scan over all blocks is evaluated first (it is a `let` binding there), then the
corner / diagonal existential scan. -/
def Board.piece_can_be_placed (b : Board) (piece : Piece) (offset : Position)
    (player_index : ℕ) (first_round : Bool) : Option Bool :=
  let positions := piece.normalizedBlocks.map (fun blk => blk.add offset)
  match optionAll (fun pos => b.blockGenerallyOk player_index pos) positions with
  | none => none
  | some can_generally_be_placed =>
    if first_round then
      let touches_corner := positions.any (fun pos => b.block_touches_corner pos)
      some (touches_corner && can_generally_be_placed)
    else
      match optionAny
          (fun pos => b.block_is_diagonally_adjacent_to_block_from_same_player pos player_index)
          positions with
      | none => none
      | some is_diagonally_adjacent => some (is_diagonally_adjacent && can_generally_be_placed)

/-- `Board::place_piece`: reject (returning the piece) when the legality
predicate fails, otherwise occupy every translated block in order.  `none` is
a panic inside the legality scan. -/
def Board.place_piece (b : Board) (piece : Piece) (offset : Position)
    (player_index : ℕ) (first_round : Bool) :
    Option (Except String (Board × Option Piece)) :=
  match b.piece_can_be_placed piece offset player_index first_round with
  | none => none
  | some false => some (Except.ok (b, some piece))
  | some true =>
    let b' := piece.normalizedBlocks.foldl
      (fun acc blk => acc.occupy_position (blk.add offset) player_index) b
    some (Except.ok (b', none))

/-- `struct Player` (the two `ratatui` colours are opaque display payload the
core never reads; they are carried as bare numbers). -/
structure Player where
  name : String
  color : ℕ
  secondary_color : ℕ
  available_pieces : List Piece
  first_move : Bool
deriving DecidableEq, Repr

/-- `struct Players`. -/
structure Players where
  players : List Player
  active_player_index : ℕ
deriving DecidableEq, Repr

/-- `Players::switch_to_next_player` (`% 0` cannot occur: the call site is
reached only after the active player was successfully read). -/
def Players.switch_to_next_player (ps : Players) : Players :=
  { ps with active_player_index := (ps.active_player_index + 1) % ps.players.length }

/-- `struct Game`. -/
structure Game where
  board : Board
  players : Players
deriving DecidableEq, Repr

/-- `Game::active_player_index`. -/
def Game.active_player_index (g : Game) : ℕ :=
  g.players.active_player_index

/-- `Game::place_piece`.  Panics of the source (`players[idx]` with a bad
index, `Vec::remove` with a bad piece index, `.unwrap()` inside the legality
scan) are the `none` outcome; the `u16` loop bound `4 - rotations` of
`Game::return_piece_to_list` is the wrapping `u16sub 4 rotations` (a release
build wraps; a debug build would panic for `rotations > 4`). -/
def Game.place_piece (g : Game) (piece_index rotations : ℕ) (position : Position) :
    Option (Except String (Bool × Game)) :=
  let player_index := g.players.active_player_index
  match g.players.players.get? player_index with
  | none => none
  | some player =>
    match player.available_pieces.get? piece_index with
    | none => none
    | some piece0 =>
      let first_round := player.first_move
      let piece := rotateN rotations piece0
      match g.board.place_piece piece position player_index first_round with
      | none => none
      | some (Except.error e) => some (Except.error e)
      | some (Except.ok (b', some returned)) =>
        -- rejected: `Game::return_piece_to_list` rotates `4 - rotations` more
        -- times and reinserts at `piece_index`
        let restored := rotateN (u16sub 4 rotations) returned
        let player' := { player with
          available_pieces :=
            (player.available_pieces.eraseIdx piece_index).insertIdx piece_index restored }
        some (Except.ok (false, { g with
          board := b'
          players := { g.players with players := g.players.players.set player_index player' } }))
      | some (Except.ok (b', none)) =>
        -- accepted: clear `first_move`, then advance the turn
        let player' := { player with
          available_pieces := player.available_pieces.eraseIdx piece_index
          first_move := false }
        some (Except.ok (true, { g with
          board := b'
          players := Players.switch_to_next_player
            { g.players with players := g.players.players.set player_index player' } }))

/-! ### Spec-side predicates for claim C1

These follow the words of the specification ("The overall placement is legal
iff the free-cell+edge-adjacency condition holds for *all* blocks AND the
corner-or-diagonal condition holds for *at least one* block") and are compared
against the source-derived `Board.place_piece` in the C1 refinement theorem. -/

/-- The absolute board position of every piece block, `block + offset`
(blocks already normalised by `Piece::blocks()`). -/
def translatedBlocks (piece : Piece) (offset : Position) : List Position :=
  piece.normalizedBlocks.map (fun blk => blk.add offset)

/-- Spec-side, per block: the block lands on a `Free` cell and none of its
existing (on-grid) orthogonal neighbours is occupied by the same player. -/
def SpecBlockOk (b : Board) (player_index : ℕ) (p : Position) : Prop :=
  b.get_state_on_position p = Except.ok State.Free ∧
  (0 < p.x → b.get_state_on_position ⟨p.x - 1, p.y⟩ ≠ Except.ok (State.Occupied player_index)) ∧
  (p.x + 1 < b.width → b.get_state_on_position ⟨p.x + 1, p.y⟩ ≠ Except.ok (State.Occupied player_index)) ∧
  (0 < p.y → b.get_state_on_position ⟨p.x, p.y - 1⟩ ≠ Except.ok (State.Occupied player_index)) ∧
  (p.y + 1 < b.height → b.get_state_on_position ⟨p.x, p.y + 1⟩ ≠ Except.ok (State.Occupied player_index))

/-- Spec-side: the block lies on one of the four grid corners. -/
def SpecCorner (b : Board) (p : Position) : Prop :=
  (p.x = 0 ∧ p.y = 0) ∨ (p.x = b.width - 1 ∧ p.y = 0) ∨
  (p.x = 0 ∧ p.y = b.height - 1) ∨ (p.x = b.width - 1 ∧ p.y = b.height - 1)

/-- Spec-side: the block is diagonally adjacent (one of its on-grid diagonal
neighbours) to a cell already occupied by the same player. -/
def SpecDiag (b : Board) (player_index : ℕ) (p : Position) : Prop :=
  (0 < p.x ∧ 0 < p.y ∧
    b.get_state_on_position ⟨p.x - 1, p.y - 1⟩ = Except.ok (State.Occupied player_index)) ∨
  (p.x + 1 < b.width ∧ 0 < p.y ∧
    b.get_state_on_position ⟨p.x + 1, p.y - 1⟩ = Except.ok (State.Occupied player_index)) ∨
  (0 < p.x ∧ p.y + 1 < b.height ∧
    b.get_state_on_position ⟨p.x - 1, p.y + 1⟩ = Except.ok (State.Occupied player_index)) ∨
  (p.x + 1 < b.width ∧ p.y + 1 < b.height ∧
    b.get_state_on_position ⟨p.x + 1, p.y + 1⟩ = Except.ok (State.Occupied player_index))

/-- Spec-side legality of a whole placement, exactly as claim C1 states it. -/
def SpecLegal (b : Board) (piece : Piece) (offset : Position)
    (player_index : ℕ) (first_round : Bool) : Prop :=
  (∀ p ∈ translatedBlocks piece offset, SpecBlockOk b player_index p) ∧
  (if first_round then ∃ p ∈ translatedBlocks piece offset, SpecCorner b p
   else ∃ p ∈ translatedBlocks piece offset, SpecDiag b player_index p)

/-- `impl FromStr for Piece` (src/main.rs): the text record, split into lines
(Rust's `str::lines` is modelled by passing the line list); an 'x' at column
`x` of line `y` becomes the block `(x, y)` (the `as u16` casts wrap), and the
pivot is `(line count − 1) / 2` as an `f32`.  For an empty record the `usize`
subtraction `count - 1` would panic in a debug build; the truncated `ℕ`
subtraction stands in, and the theorems about this function assume a nonempty
record. -/
def Piece.from_str (lines : List String) : Piece :=
  let blocks := lines.enum.flatMap (fun p =>
    p.2.toList.enum.filterMap (fun q =>
      if q.2 = 'x' then some (⟨q.1 % 65536, p.1 % 65536⟩ : Position) else none))
  Piece.new blocks (((lines.length - 1 : ℕ) : ℚ) / 2)

/-- Exactness condition for the rotation 4-cycle: the doubled pivot is a whole
number `k` in `u16` range and every block coordinate is at most `k`, so no
application of the saturating `as u16` cast ever clamps. -/
def RotationExact (p : Piece) (k : ℕ) : Prop :=
  k ≤ 65535 ∧ p.pivot + p.pivot = (k : ℚ) ∧ ∀ blk ∈ p.blocks, blk.x ≤ k ∧ blk.y ≤ k

/-- A 1×3 bar with pivot 1 (the piece of the source's `should_rotate_block`
test); its rotation cycle is exact. -/
def pieceLine : Piece := Piece.new [⟨0, 1⟩, ⟨1, 1⟩, ⟨2, 1⟩] 1

/-- A 1×2 bar with pivot 0, as produced by `Piece::from_str` for the record
"xx"; its first rotation sends a block to a negative pre-cast coordinate, so
the saturating cast clamps and the 4-cycle breaks. -/
def pieceSat : Piece := Piece.new [⟨0, 0⟩, ⟨1, 0⟩] 0

/-- One board mutation step: a `Board::place_piece` call that terminated
normally (accepting or rejecting; a panicking call produces no next state). -/
def Board.Step (b b' : Board) : Prop :=
  ∃ piece offset player_index first_round res,
    b.place_piece piece offset player_index first_round = some (Except.ok (b', res))

/-- A finite sequence of `Board::place_piece` calls. -/
def Board.Steps : Board → Board → Prop :=
  Relation.ReflTransGen Board.Step

/-! ### Concrete boards, players and games used by witnesses and
counterexamples -/

/-- A 1×1 piece, as in the source's `should_place_block` test. -/
def pieceDot : Piece := Piece.new [⟨0, 0⟩] 0

/-- Fallback player for `getD`-style lookups in closed statements. -/
def playerDefault : Player := ⟨"", 0, 0, [], true⟩

def plLine : Player := ⟨"Bob", 0, 0, [pieceLine], true⟩

/-- One player holding the exact-cycle bar on an empty 3×3 board. -/
def gLine : Game := ⟨Board.new 3 3, ⟨[plLine], 0⟩⟩

def plSat : Player := ⟨"Ann", 0, 0, [pieceSat], true⟩

/-- One player holding the saturating 1×2 bar on an empty 3×3 board. -/
def gSat : Game := ⟨Board.new 3 3, ⟨[plSat], 0⟩⟩

/-- The state `gSat` reaches after the rejected placement of its piece at
`(0,1)` with `rotations = 0`: the piece comes back rotated four times. -/
def gSatAfter : Game :=
  ⟨Board.new 3 3, ⟨[{ plSat with available_pieces := [rotateN 4 pieceSat] }], 0⟩⟩

def plSolo : Player := ⟨"Solo", 0, 0, [pieceDot], true⟩

/-- A single-player game on an empty 2×2 board. -/
def gSolo : Game := ⟨Board.new 2 2, ⟨[plSolo], 0⟩⟩

/-- The state `gSolo` reaches after its accepted corner placement. -/
def gSoloAfter : Game :=
  ⟨⟨2, 2, [[State.Occupied 0, State.Free], [State.Free, State.Free]]⟩,
   ⟨[⟨"Solo", 0, 0, [], false⟩], 0⟩⟩

def plA : Player := ⟨"A", 0, 0, [pieceDot], true⟩

def plB : Player := ⟨"B", 1, 1, [pieceDot], true⟩

/-- A two-player game on an empty 2×2 board. -/
def gDuo : Game := ⟨Board.new 2 2, ⟨[plA, plB], 0⟩⟩

/-- The state `gDuo` reaches after player A's accepted corner placement. -/
def gDuoAfter : Game :=
  ⟨⟨2, 2, [[State.Occupied 0, State.Free], [State.Free, State.Free]]⟩,
   ⟨[⟨"A", 0, 0, [], false⟩, plB], 1⟩⟩

/-- A 2×2 board whose `(0,0)` cell is occupied by player 0. -/
def bOcc : Board := ⟨2, 2, [[State.Occupied 0, State.Free], [State.Free, State.Free]]⟩

/-- `bOcc` after player 0 also occupies `(1,1)`. -/
def bOcc2 : Board := ⟨2, 2, [[State.Occupied 0, State.Free], [State.Free, State.Occupied 0]]⟩

/-! ## Theorems -/

/-! ### Arithmetic helper lemmas -/

theorem u16sub_eq_sub {a b : ℕ} (hba : b ≤ a) (ha : a < 65536) : u16sub a b = a - b := by
  unfold u16sub
  omega

theorem u16add_eq_add {a b : ℕ} (h : a + b < 65536) : u16add a b = a + b := by
  unfold u16add
  omega

theorem f32ToU16_le (q : ℚ) : f32ToU16 q ≤ 65535 :=
  min_le_left _ _

theorem f32ToU16_natCast {n : ℕ} (hn : n ≤ 65535) : f32ToU16 (n : ℚ) = n := by
  unfold f32ToU16
  rw [Int.floor_natCast]
  omega

theorem f32ToU16_of_floor_nonpos {q : ℚ} (h : ⌊q⌋ ≤ 0) : f32ToU16 q = 0 := by
  unfold f32ToU16
  rw [Int.toNat_of_nonpos h]
  simp

theorem f32ToU16_of_neg {q : ℚ} (hq : q < 0) : f32ToU16 q = 0 :=
  f32ToU16_of_floor_nonpos (le_of_lt (Int.floor_lt.2 (by exact_mod_cast hq)))

/-- Rotation around the pivot 0 always clamps the new `x` to 0. -/
theorem rotate_around_pivot_zero (b : Position) :
    b.rotate_around_pivot 0 = ⟨0, b.x⟩ := by
  unfold Position.rotate_around_pivot
  have h : (0 : ℚ) + 0 - (b.y : ℚ) ≤ 0 := by
    simp
  rw [f32ToU16_of_floor_nonpos (Int.floor_nonpos h)]

/-! ### Rotation lemmas -/

theorem rotate_blocks_exact {p : Piece} {k : ℕ} (h : RotationExact p k) :
    p.rotate.blocks = p.blocks.map (fun b => ⟨k - b.y, b.x⟩) := by
  obtain ⟨hk, hpiv, hblk⟩ := h
  show p.blocks.map (fun b => b.rotate_around_pivot p.pivot) = _
  refine List.map_congr_left (fun b hb => ?_)
  obtain ⟨hx, hy⟩ := hblk b hb
  unfold Position.rotate_around_pivot
  rw [hpiv]
  have hcast : (k : ℚ) - (b.y : ℚ) = ((k - b.y : ℕ) : ℚ) := by
    rw [Nat.cast_sub hy]
  rw [hcast, f32ToU16_natCast (by omega)]

theorem RotationExact.rotate {p : Piece} {k : ℕ} (h : RotationExact p k) :
    RotationExact p.rotate k := by
  obtain ⟨hk, hpiv, hblk⟩ := h
  refine ⟨hk, hpiv, ?_⟩
  rw [rotate_blocks_exact ⟨hk, hpiv, hblk⟩]
  intro b hb
  rw [List.mem_map] at hb
  obtain ⟨a, ha, rfl⟩ := hb
  obtain ⟨hax, hay⟩ := hblk a ha
  exact ⟨Nat.sub_le k a.y, hax⟩

theorem rotate4_blocks_of_exact {p : Piece} {k : ℕ} (h : RotationExact p k) :
    (rotateN 4 p).blocks = p.blocks := by
  have h1 := RotationExact.rotate h
  have h2 := RotationExact.rotate h1
  have h3 := RotationExact.rotate h2
  show p.rotate.rotate.rotate.rotate.blocks = p.blocks
  rw [rotate_blocks_exact h3, rotate_blocks_exact h2, rotate_blocks_exact h1,
    rotate_blocks_exact h, List.map_map, List.map_map, List.map_map]
  conv_rhs => rw [← List.map_id p.blocks]
  refine List.map_congr_left (fun b hb => ?_)
  obtain ⟨hx, hy⟩ := h.2.2 b hb
  simp only [Function.comp, id]
  have e1 : k - (k - b.y) = b.y := by omega
  have e2 : k - (k - b.x) = b.x := by omega
  simp [e1, e2]

theorem rotateN_rotateN (a b : ℕ) (p : Piece) :
    rotateN a (rotateN b p) = rotateN (a + b) p :=
  (Function.iterate_add_apply Piece.rotate a b p).symm

theorem rotateN_four_mul {p : Piece} (h : rotateN 4 p = p) :
    ∀ m, rotateN (4 * m) p = p := by
  intro m
  induction m with
  | zero => rfl
  | succ n ih =>
    have : 4 * (n + 1) = 4 * n + 4 := by ring
    rw [this, ← rotateN_rotateN (4 * n) 4 p, h, ih]

/-- The total rotation count applied to a piece across a rejected transaction:
`rotations` forward plus the wrapping `4 - rotations`, always a multiple of 4. -/
theorem u16sub_four_total {r : ℕ} (hr : r < 65536) :
    u16sub 4 r + r = 4 ∨ u16sub 4 r + r = 65540 := by
  unfold u16sub
  omega

theorem Piece.ext_fields {p q : Piece} (h1 : p.blocks = q.blocks)
    (h2 : p.pivot = q.pivot) (h3 : p.num_lines = q.num_lines)
    (h4 : p.num_columns = q.num_columns)
    (h5 : p.bounding_box_offset = q.bounding_box_offset) : p = q := by
  cases p
  cases q
  simp_all

/-- Under the exactness condition, four rotations restore the whole piece
(not only its blocks), provided its bounding-box offset is consistent with its
blocks — which holds for every piece built by `Piece::new` and after every
`rotate()`. -/
theorem rotate4_eq_of_exact {p : Piece} {k : ℕ} (h : RotationExact p k)
    (hoff : p.bounding_box_offset = ⟨Piece.min_x p.blocks, Piece.min_y p.blocks⟩) :
    rotateN 4 p = p := by
  have hb := rotate4_blocks_of_exact h
  refine Piece.ext_fields hb rfl rfl rfl ?_
  have h4 : (rotateN 4 p).bounding_box_offset
      = ⟨Piece.min_x (rotateN 4 p).blocks, Piece.min_y (rotateN 4 p).blocks⟩ := rfl
  rw [h4, hb, hoff]

theorem pieceLine_rotate4 : rotateN 4 pieceLine = pieceLine :=
  rotate4_eq_of_exact
    (k := 2) ⟨by norm_num, by show (1 : ℚ) + 1 = ((2 : ℕ) : ℚ); norm_num, by decide⟩ rfl

/-! ### List helper lemmas -/

theorem insertIdx_eraseIdx {α : Type _} :
    ∀ (l : List α) (i : ℕ) (a : α), l.get? i = some a →
      (l.eraseIdx i).insertIdx i a = l
  | [], i, a, h => by simp at h
  | b :: l, 0, a, h => by
    simp only [List.get?] at h
    injection h with h
    subst h
    rfl
  | b :: l, i + 1, a, h => by
    simp only [List.get?] at h
    show b :: (l.eraseIdx i).insertIdx i a = b :: l
    rw [insertIdx_eraseIdx l i a h]

theorem set_get?_self {α : Type _} :
    ∀ (l : List α) (i : ℕ) (a : α), l.get? i = some a → l.set i a = l
  | [], i, a, h => by simp at h
  | b :: l, 0, a, h => by
    simp only [List.get?] at h
    injection h with h
    subst h
    rfl
  | b :: l, i + 1, a, h => by
    simp only [List.get?] at h
    show b :: l.set i a = b :: l
    rw [set_get?_self l i a h]

/-! ### Transaction-shape lemmas for `Board::place_piece` and
`Game::place_piece` -/

theorem board_place_of_can_false {b : Board} {pc : Piece} {off : Position}
    {idx : ℕ} {fr : Bool} (h : b.piece_can_be_placed pc off idx fr = some false) :
    b.place_piece pc off idx fr = some (Except.ok (b, some pc)) := by
  unfold Board.place_piece
  rw [h]

theorem board_place_of_can_true {b : Board} {pc : Piece} {off : Position}
    {idx : ℕ} {fr : Bool} (h : b.piece_can_be_placed pc off idx fr = some true) :
    b.place_piece pc off idx fr = some (Except.ok
      (pc.normalizedBlocks.foldl (fun acc blk => acc.occupy_position (blk.add off) idx) b,
       none)) := by
  unfold Board.place_piece
  rw [h]

theorem board_place_rejected_inv {b : Board} {pc : Piece} {off : Position}
    {idx : ℕ} {fr : Bool} {b' : Board} {ret : Piece}
    (h : b.place_piece pc off idx fr = some (Except.ok (b', some ret))) :
    b.piece_can_be_placed pc off idx fr = some false ∧ b' = b ∧ ret = pc := by
  unfold Board.place_piece at h
  cases hcan : b.piece_can_be_placed pc off idx fr with
  | none => rw [hcan] at h; simp at h
  | some v =>
    cases v with
    | false =>
      rw [hcan] at h
      simp only [Option.some.injEq] at h
      injection h with h
      injection h with h1 h2
      injection h2 with h2
      exact ⟨rfl, h1.symm, h2.symm⟩
    | true => rw [hcan] at h; simp at h

theorem board_place_accepted_inv {b : Board} {pc : Piece} {off : Position}
    {idx : ℕ} {fr : Bool} {b' : Board}
    (h : b.place_piece pc off idx fr = some (Except.ok (b', none))) :
    b.piece_can_be_placed pc off idx fr = some true ∧
    b' = pc.normalizedBlocks.foldl (fun acc blk => acc.occupy_position (blk.add off) idx) b := by
  unfold Board.place_piece at h
  cases hcan : b.piece_can_be_placed pc off idx fr with
  | none => rw [hcan] at h; simp at h
  | some v =>
    cases v with
    | false => rw [hcan] at h; simp at h
    | true =>
      rw [hcan] at h
      simp only [Option.some.injEq] at h
      injection h with h
      injection h with h1 h2
      exact ⟨rfl, h1.symm⟩

/-- The rejected-transaction shape of `Game::place_piece`. -/
theorem game_place_rejected {g : Game} {i r : ℕ} {pos : Position} {pl : Player}
    {piece0 : Piece} {b' : Board} {ret : Piece}
    (hpl : g.players.players.get? g.players.active_player_index = some pl)
    (hpc : pl.available_pieces.get? i = some piece0)
    (hb : g.board.place_piece (rotateN r piece0) pos g.players.active_player_index
      pl.first_move = some (Except.ok (b', some ret))) :
    g.place_piece i r pos = some (Except.ok (false, { g with
      board := b'
      players := { g.players with
        players := g.players.players.set g.players.active_player_index
          { pl with available_pieces :=
              (pl.available_pieces.eraseIdx i).insertIdx i (rotateN (u16sub 4 r) ret) } } })) := by
  simp only [Game.place_piece, hpl, hpc, hb]

/-- The accepted-transaction shape of `Game::place_piece`. -/
theorem game_place_accepted {g : Game} {i r : ℕ} {pos : Position} {pl : Player}
    {piece0 : Piece} {b' : Board}
    (hpl : g.players.players.get? g.players.active_player_index = some pl)
    (hpc : pl.available_pieces.get? i = some piece0)
    (hb : g.board.place_piece (rotateN r piece0) pos g.players.active_player_index
      pl.first_move = some (Except.ok (b', none))) :
    g.place_piece i r pos = some (Except.ok (true, { g with
      board := b'
      players := Players.switch_to_next_player { g.players with
        players := g.players.players.set g.players.active_player_index
          { pl with
            available_pieces := pl.available_pieces.eraseIdx i
            first_move := false } } })) := by
  simp only [Game.place_piece, hpl, hpc, hb]

/-- A bad active-player index is a panic. -/
theorem game_place_pl_none {g : Game} {i r : ℕ} {pos : Position}
    (hpl : g.players.players.get? g.players.active_player_index = none) :
    g.place_piece i r pos = none := by
  simp only [Game.place_piece, hpl]

/-- A bad piece index is a panic (`Vec::remove` out of range). -/
theorem game_place_pc_none {g : Game} {i r : ℕ} {pos : Position} {pl : Player}
    (hpl : g.players.players.get? g.players.active_player_index = some pl)
    (hpc : pl.available_pieces.get? i = none) :
    g.place_piece i r pos = none := by
  simp only [Game.place_piece, hpl, hpc]

/-- A panic inside the board legality scan propagates. -/
theorem game_place_board_none {g : Game} {i r : ℕ} {pos : Position} {pl : Player}
    {piece0 : Piece}
    (hpl : g.players.players.get? g.players.active_player_index = some pl)
    (hpc : pl.available_pieces.get? i = some piece0)
    (hb : g.board.place_piece (rotateN r piece0) pos g.players.active_player_index pl.first_move = none) :
    g.place_piece i r pos = none := by
  simp only [Game.place_piece, hpl, hpc, hb]

/-- An `Err` from the board propagates via `?`. -/
theorem game_place_board_err {g : Game} {i r : ℕ} {pos : Position} {pl : Player}
    {piece0 : Piece} {e : String}
    (hpl : g.players.players.get? g.players.active_player_index = some pl)
    (hpc : pl.available_pieces.get? i = some piece0)
    (hb : g.board.place_piece (rotateN r piece0) pos g.players.active_player_index pl.first_move = some (Except.error e)) :
    g.place_piece i r pos = some (Except.error e) := by
  simp only [Game.place_piece, hpl, hpc, hb]

/-- Inversion: a rejected `Game::place_piece` run determines the whole
resulting state. -/
theorem game_place_rejected_inv {g : Game} {i r : ℕ} {pos : Position} {g' : Game}
    (h : g.place_piece i r pos = some (Except.ok (false, g'))) :
    ∃ pl piece0,
      g.players.players.get? g.players.active_player_index = some pl ∧
      pl.available_pieces.get? i = some piece0 ∧
      g.board.piece_can_be_placed (rotateN r piece0) pos g.players.active_player_index pl.first_move = some false ∧
      g' = { g with
        players := { g.players with
          players := g.players.players.set g.players.active_player_index
            { pl with available_pieces := (pl.available_pieces.eraseIdx i).insertIdx i (rotateN (u16sub 4 r) (rotateN r piece0)) } } } := by
  cases hpl : g.players.players.get? g.players.active_player_index with
  | none => rw [game_place_pl_none hpl] at h; exact absurd h (by simp)
  | some pl =>
    cases hpc : pl.available_pieces.get? i with
    | none => rw [game_place_pc_none hpl hpc] at h; exact absurd h (by simp)
    | some piece0 =>
      refine ⟨pl, piece0, rfl, hpc, ?_⟩
      cases hb : g.board.place_piece (rotateN r piece0) pos g.players.active_player_index pl.first_move with
      | none => rw [game_place_board_none hpl hpc hb] at h; exact absurd h (by simp)
      | some res =>
        cases res with
        | error e => rw [game_place_board_err hpl hpc hb] at h; exact absurd h (by simp)
        | ok pr =>
          obtain ⟨b', opt⟩ := pr
          cases opt with
          | none => rw [game_place_accepted hpl hpc hb] at h; exact absurd h (by simp)
          | some ret =>
            obtain ⟨hcan, hbb, hret⟩ := board_place_rejected_inv hb
            rw [game_place_rejected hpl hpc hb] at h
            simp only [Option.some.injEq, Except.ok.injEq, Prod.mk.injEq, true_and] at h
            refine ⟨hcan, ?_⟩
            rw [← h, hret, hbb]

/-- Inversion: an accepted `Game::place_piece` run determines the whole
resulting state. -/
theorem game_place_accepted_inv {g : Game} {i r : ℕ} {pos : Position} {g' : Game}
    (h : g.place_piece i r pos = some (Except.ok (true, g'))) :
    ∃ pl piece0 b',
      g.players.players.get? g.players.active_player_index = some pl ∧
      pl.available_pieces.get? i = some piece0 ∧
      g.board.place_piece (rotateN r piece0) pos g.players.active_player_index pl.first_move = some (Except.ok (b', none)) ∧
      g' = { g with
        board := b'
        players := Players.switch_to_next_player { g.players with
          players := g.players.players.set g.players.active_player_index
            { pl with
              available_pieces := pl.available_pieces.eraseIdx i
              first_move := false } } } := by
  cases hpl : g.players.players.get? g.players.active_player_index with
  | none => rw [game_place_pl_none hpl] at h; exact absurd h (by simp)
  | some pl =>
    cases hpc : pl.available_pieces.get? i with
    | none => rw [game_place_pc_none hpl hpc] at h; exact absurd h (by simp)
    | some piece0 =>
      cases hb : g.board.place_piece (rotateN r piece0) pos g.players.active_player_index pl.first_move with
      | none => rw [game_place_board_none hpl hpc hb] at h; exact absurd h (by simp)
      | some res =>
        cases res with
        | error e => rw [game_place_board_err hpl hpc hb] at h; exact absurd h (by simp)
        | ok pr =>
          obtain ⟨b', opt⟩ := pr
          cases opt with
          | some ret => rw [game_place_rejected hpl hpc hb] at h; exact absurd h (by simp)
          | none =>
            rw [game_place_accepted hpl hpc hb] at h
            simp only [Option.some.injEq, Except.ok.injEq, Prod.mk.injEq, true_and] at h
            exact ⟨pl, piece0, b', rfl, hpc, hb, h.symm⟩

/-- For a nonempty list of `u16` values, subtracting the list minimum from
every element (with `u16` subtraction) gives a list whose minimum is 0. -/
theorem min?_map_u16sub_min {l : List ℕ} (hne : l ≠ []) (hlt : ∀ a ∈ l, a < 65536) :
    (l.map (fun a => u16sub a ((l.min?).getD 0))).min? = some 0 := by
  obtain ⟨m, hm⟩ : ∃ m, l.min? = some m := by
    cases h : l.min? with
    | none => exact absurd (List.min?_eq_none_iff.1 h) hne
    | some m => exact ⟨m, rfl⟩
  have hmem : m ∈ l ∧ ∀ b ∈ l, m ≤ b :=
    (List.min?_eq_some_iff (fun a => le_refl a) (fun a b => min_choice a b)
      (fun a b c => le_min_iff)).1 hm
  refine (List.min?_eq_some_iff (fun a => le_refl a) (fun a b => min_choice a b)
      (fun a b c => le_min_iff)).2 ⟨?_, fun b _ => Nat.zero_le b⟩
  rw [List.mem_map]
  refine ⟨m, hmem.1, ?_⟩
  simp only [hm, Option.getD_some]
  rw [u16sub_eq_sub (le_refl m) (hlt m hmem.1)]
  omega

/-! ### Claim theorems -/

/-- C10: `Position::rotate_around_pivot` is total; the new `x` is the `f32`
value `2·pivot − y` converted with Rust's saturating `as u16` semantics, so a
negative value clamps to 0, and the new `y` is always the old `x`. -/
theorem C10_rotate_total_saturating (p : Position) (pivot : ℚ) :
    (p.rotate_around_pivot pivot).y = p.x ∧
    (pivot + pivot - (p.y : ℚ) < 0 → (p.rotate_around_pivot pivot).x = 0) := by
  refine ⟨rfl, fun h => ?_⟩
  show f32ToU16 (pivot + pivot - (p.y : ℚ)) = 0
  exact f32ToU16_of_neg h

theorem C10_rotate_total_saturating_witness :
    (Position.rotate_around_pivot ⟨3, 5⟩ 1).y = 3 ∧
    (Position.rotate_around_pivot ⟨3, 5⟩ 1).x = 0 :=
  ⟨(C10_rotate_total_saturating ⟨3, 5⟩ 1).1,
   (C10_rotate_total_saturating ⟨3, 5⟩ 1).2 (by norm_num)⟩

/-- C2 (counterexample): for the piece built by `Piece::from_str` on the
record "xx" (blocks `(0,0)`, `(1,0)`, pivot 0), four rotations do *not*
restore the stored blocks: the saturating cast collapses them to
`[(0,0), (0,0)]`. -/
theorem C2_rotate_cycle_cex : (rotateN 4 pieceSat).blocks ≠ pieceSat.blocks := by
  have hb : ∀ q : Piece, q.pivot = 0 →
      q.rotate.blocks = q.blocks.map (fun b => (⟨0, b.x⟩ : Position)) := by
    intro q hq
    show q.blocks.map (fun b => b.rotate_around_pivot q.pivot) = _
    rw [hq]
    exact List.map_congr_left (fun b _ => rotate_around_pivot_zero b)
  have h4 : (rotateN 4 pieceSat).blocks = [⟨0, 0⟩, ⟨0, 0⟩] := by
    show pieceSat.rotate.rotate.rotate.rotate.blocks = _
    rw [hb pieceSat.rotate.rotate.rotate rfl, hb pieceSat.rotate.rotate rfl,
      hb pieceSat.rotate rfl, hb pieceSat rfl]
    rfl
  rw [h4]
  decide

/-- C2 (amended): whenever the piece's doubled pivot is a whole `u16` number
`k` and every block coordinate is at most `k` (in particular for every piece
of the standard set, whose pivot is half its bounding-box span), four
consecutive `rotate()` calls restore every stored block exactly, after any
number of prior rotations. -/
theorem C2_rotate_cycle_amended (p : Piece) (k n : ℕ) (h : RotationExact p k) :
    (rotateN 4 (rotateN n p)).blocks = (rotateN n p).blocks := by
  have hn : RotationExact (rotateN n p) k := by
    induction n with
    | zero => exact h
    | succ m ih =>
      rw [rotateN, Function.iterate_succ_apply']
      exact RotationExact.rotate ih
  exact rotate4_blocks_of_exact hn

theorem C2_rotate_cycle_amended_witness :
    (rotateN 4 (rotateN 1 pieceLine)).blocks = (rotateN 1 pieceLine).blocks :=
  C2_rotate_cycle_amended pieceLine 2 1
    ⟨by norm_num, by show (1 : ℚ) + 1 = ((2 : ℕ) : ℚ); norm_num, by decide⟩

/-- C7: after any `rotate()`, `num_lines` and `num_columns` are exactly
swapped relative to before (so their product is unchanged),
`bounding_box_offset` equals the componentwise minimum of the stored blocks,
and hence the minimum coordinate over the sequence yielded by `blocks()` is
exactly `(0,0)` in each axis. -/
theorem C7_bounding_box (p : Piece) (hne : p.blocks ≠ [])
    (hx : ∀ blk ∈ p.blocks, blk.x < 65536) :
    p.rotate.num_lines = p.num_columns ∧
    p.rotate.num_columns = p.num_lines ∧
    p.rotate.num_lines * p.rotate.num_columns = p.num_lines * p.num_columns ∧
    p.rotate.bounding_box_offset =
      ⟨Piece.min_x p.rotate.blocks, Piece.min_y p.rotate.blocks⟩ ∧
    (p.rotate.normalizedBlocks.map Position.x).min? = some 0 ∧
    (p.rotate.normalizedBlocks.map Position.y).min? = some 0 := by
  have hrne : p.rotate.blocks ≠ [] := by
    show p.blocks.map _ ≠ []
    simpa using hne
  refine ⟨rfl, rfl, Nat.mul_comm _ _, rfl, ?_, ?_⟩
  · have hxlist : p.rotate.normalizedBlocks.map Position.x
        = (p.rotate.blocks.map Position.x).map
            (fun a => u16sub a (((p.rotate.blocks.map Position.x).min?).getD 0)) := by
      simp only [Piece.normalizedBlocks, List.map_map]
      rfl
    rw [hxlist]
    refine min?_map_u16sub_min (by simpa using hrne) ?_
    intro a ha
    rw [List.mem_map] at ha
    obtain ⟨b, hb, rfl⟩ := ha
    show b.x < 65536
    have : b ∈ p.blocks.map (fun c => c.rotate_around_pivot p.pivot) := hb
    rw [List.mem_map] at this
    obtain ⟨c, _, rfl⟩ := this
    have := f32ToU16_le (p.pivot + p.pivot - (c.y : ℚ))
    show f32ToU16 _ < 65536
    omega
  · have hylist : p.rotate.normalizedBlocks.map Position.y
        = (p.rotate.blocks.map Position.y).map
            (fun a => u16sub a (((p.rotate.blocks.map Position.y).min?).getD 0)) := by
      simp only [Piece.normalizedBlocks, List.map_map]
      rfl
    rw [hylist]
    refine min?_map_u16sub_min (by simpa using hrne) ?_
    intro a ha
    rw [List.mem_map] at ha
    obtain ⟨b, hb, rfl⟩ := ha
    show b.y < 65536
    have : b ∈ p.blocks.map (fun c => c.rotate_around_pivot p.pivot) := hb
    rw [List.mem_map] at this
    obtain ⟨c, hc, rfl⟩ := this
    exact hx c hc

theorem C7_bounding_box_witness :
    pieceLine.rotate.num_lines = pieceLine.num_columns ∧
    pieceLine.rotate.num_columns = pieceLine.num_lines ∧
    pieceLine.rotate.num_lines * pieceLine.rotate.num_columns
      = pieceLine.num_lines * pieceLine.num_columns ∧
    pieceLine.rotate.bounding_box_offset =
      ⟨Piece.min_x pieceLine.rotate.blocks, Piece.min_y pieceLine.rotate.blocks⟩ ∧
    (pieceLine.rotate.normalizedBlocks.map Position.x).min? = some 0 ∧
    (pieceLine.rotate.normalizedBlocks.map Position.y).min? = some 0 :=
  C7_bounding_box pieceLine (by decide) (by decide)

/-- C8 (counterexample): for the three-line record "x"/"x"/"x", `from_str`
sets the pivot to `(3 − 1)/2 = 1`, not to half the line count `3/2`. -/
theorem C8_from_str_cex : (Piece.from_str ["x", "x", "x"]).pivot ≠ 3 / 2 := by
  show (((3 - 1 : ℕ) : ℚ) / 2) ≠ 3 / 2
  norm_num

/-- C8 (amended): parsing a nonempty piece-definition record (at most 65536
text lines, each of at most 65536 characters, i.e. `u16`-addressable) yields a
`Piece` whose blocks are exactly the (column, line) coordinates of the 'x'
characters, and whose pivot is `(line count − 1) / 2` — half of one less than
the record's line count, not half the line count. -/
theorem C8_from_str_amended (lines : List String) (hne : lines ≠ [])
    (hl : lines.length ≤ 65536) (hc : ∀ s ∈ lines, s.length ≤ 65536) :
    (Piece.from_str lines).pivot * 2 + 1 = (lines.length : ℚ) ∧
    (∀ cx cy : ℕ, (⟨cx, cy⟩ : Position) ∈ (Piece.from_str lines).blocks ↔
      ∃ s, lines[cy]? = some s ∧ s.toList[cx]? = some 'x') := by
  constructor
  · show ((lines.length - 1 : ℕ) : ℚ) / 2 * 2 + 1 = (lines.length : ℚ)
    have hpos : 1 ≤ lines.length := by
      cases lines with
      | nil => exact absurd rfl hne
      | cons a l => exact Nat.succ_le_succ (Nat.zero_le _)
    rw [div_mul_cancel₀ _ (two_ne_zero)]
    rw [Nat.cast_sub hpos]
    norm_num
  · intro cx cy
    show (⟨cx, cy⟩ : Position) ∈ lines.enum.flatMap _ ↔ _
    rw [List.mem_flatMap]
    constructor
    · rintro ⟨pr, hpr, hmem⟩
      rw [List.mem_filterMap] at hmem
      obtain ⟨q, hq, hsome⟩ := hmem
      by_cases hx : q.2 = 'x'
      · rw [if_pos hx] at hsome
        have hqe := List.mem_enum_iff_getElem?.1 hq
        have hpe := List.mem_enum_iff_getElem?.1 hpr
        have hqlt : q.1 < pr.2.toList.length := (List.getElem?_eq_some.1 hqe).1
        have hplt : pr.1 < lines.length := (List.getElem?_eq_some.1 hpe).1
        have hslen : pr.2.toList.length ≤ 65536 := by
          have h1 := hc pr.2 (List.getElem?_mem hpe)
          have h2 : pr.2.toList.length = pr.2.length := rfl
          omega
        rw [Option.some.injEq, Position.mk.injEq] at hsome
        obtain ⟨hx1, hy1⟩ := hsome
        have hq1 : q.1 % 65536 = q.1 := Nat.mod_eq_of_lt (by omega)
        have hp1 : pr.1 % 65536 = pr.1 := Nat.mod_eq_of_lt (by omega)
        refine ⟨pr.2, ?_, ?_⟩
        · rw [← hy1, hp1]
          exact hpe
        · rw [← hx1, hq1, ← hx]
          exact hqe
      · rw [if_neg hx] at hsome
        exact absurd hsome (by simp)
    · rintro ⟨s, hs, hcx⟩
      have hylt : cy < lines.length := (List.getElem?_eq_some.1 hs).1
      have hxlt : cx < s.toList.length := (List.getElem?_eq_some.1 hcx).1
      have hslen : s.toList.length ≤ 65536 := by
        have h1 := hc s (List.getElem?_mem hs)
        have h2 : s.toList.length = s.length := rfl
        omega
      refine ⟨(cy, s), List.mem_enum_iff_getElem?.2 hs, ?_⟩
      rw [List.mem_filterMap]
      refine ⟨(cx, 'x'), List.mem_enum_iff_getElem?.2 hcx, ?_⟩
      rw [if_pos rfl]
      simp only [Option.some.injEq, Position.mk.injEq]
      exact ⟨Nat.mod_eq_of_lt (by omega), Nat.mod_eq_of_lt (by omega)⟩

theorem C8_from_str_amended_witness :
    (Piece.from_str ["x", "x", "x"]).pivot * 2 + 1 = ((["x", "x", "x"] : List String).length : ℚ) ∧
    ((⟨0, 1⟩ : Position) ∈ (Piece.from_str ["x", "x", "x"]).blocks ↔
      ∃ s, (["x", "x", "x"] : List String)[1]? = some s ∧ s.toList[0]? = some 'x') :=
  ⟨(C8_from_str_amended ["x", "x", "x"] (by decide) (by norm_num) (by decide)).1,
   (C8_from_str_amended ["x", "x", "x"] (by decide) (by norm_num) (by decide)).2 0 1⟩

/-! ### Evaluation helpers shared by counterexamples and witnesses -/

theorem rotate_blocks_pivot_zero {q : Piece} (hq : q.pivot = 0) :
    q.rotate.blocks = q.blocks.map (fun b => (⟨0, b.x⟩ : Position)) := by
  show q.blocks.map (fun b => b.rotate_around_pivot q.pivot) = _
  rw [hq]
  exact List.map_congr_left (fun b _ => rotate_around_pivot_zero b)

theorem pieceSat_rotate4_blocks : (rotateN 4 pieceSat).blocks = [⟨0, 0⟩, ⟨0, 0⟩] := by
  show pieceSat.rotate.rotate.rotate.rotate.blocks = _
  rw [rotate_blocks_pivot_zero (q := pieceSat.rotate.rotate.rotate) rfl,
    rotate_blocks_pivot_zero (q := pieceSat.rotate.rotate) rfl,
    rotate_blocks_pivot_zero (q := pieceSat.rotate) rfl,
    rotate_blocks_pivot_zero (q := pieceSat) rfl]
  rfl

/-- The rejected placement of the saturating bar: `gSat` place at `(0,1)`
with zero rotations is rejected (no corner on the first round) and yields
exactly `gSatAfter`, whose reinserted piece was rotated four times. -/
theorem gSat_place_eval : gSat.place_piece 0 0 ⟨0, 1⟩ = some (Except.ok (false, gSatAfter)) := by
  have hcan : gSat.board.piece_can_be_placed (rotateN 0 pieceSat) ⟨0, 1⟩
      gSat.players.active_player_index plSat.first_move = some false := by decide
  have h1 := game_place_rejected (i := 0) (r := 0)
    (rfl : gSat.players.players.get? gSat.players.active_player_index = some plSat)
    (rfl : plSat.available_pieces.get? 0 = some pieceSat)
    (board_place_of_can_false hcan)
  rw [h1]
  rfl

/-! ### C3: transactional rejection -/

/-- C3 (counterexample): a rejected attempt is *not* always transactionally
invisible.  For the saturating piece of `gSat` (built by `Piece::from_str` on
"xx") with `rotations = 0`, the rejected attempt hands back the piece rotated
`4 - 0 = 4` times, and the saturating cast has collapsed its blocks, so the
inventory after the attempt differs from the inventory before it. -/
theorem C3_transactional_rejection_cex :
    gSat.place_piece 0 0 ⟨0, 1⟩ = some (Except.ok (false, gSatAfter)) ∧
    (gSatAfter.players.players.getD 0 playerDefault).available_pieces.map Piece.blocks
      ≠ (gSat.players.players.getD 0 playerDefault).available_pieces.map Piece.blocks := by
  refine ⟨gSat_place_eval, ?_⟩
  show [(rotateN 4 pieceSat).blocks] ≠ [pieceSat.blocks]
  rw [pieceSat_rotate4_blocks]
  decide

/-- C3 (amended): a rejected `Game::place_piece` attempt with `rotations` in
`u16` range and a piece whose rotation 4-cycle is exact
(`rotateN 4 piece = piece`, true of the standard pieces) is transactionally
invisible: the whole resulting game state — board cells, the piece's blocks
and orientation, its inventory index, the active player index and the
`first_move` flag — equals the state before the attempt. -/
theorem C3_transactional_rejection (g : Game) (i r : ℕ) (pos : Position)
    (g' : Game) (pl : Player) (piece0 : Piece)
    (hr : r < 65536)
    (hpl : g.players.players.get? g.players.active_player_index = some pl)
    (hpc : pl.available_pieces.get? i = some piece0)
    (hcycle : rotateN 4 piece0 = piece0)
    (hrej : g.place_piece i r pos = some (Except.ok (false, g'))) :
    g' = g := by
  obtain ⟨pl2, pc2, hpl2, hpc2, hcan, hG⟩ := game_place_rejected_inv hrej
  rw [hpl] at hpl2
  injection hpl2 with e1
  subst e1
  rw [hpc] at hpc2
  injection hpc2 with e2
  subst e2
  have htot : rotateN (u16sub 4 r) (rotateN r piece0) = piece0 := by
    rw [rotateN_rotateN]
    rcases u16sub_four_total hr with h4 | h4
    · rw [h4]
      exact hcycle
    · rw [h4]
      have h65540 : (65540 : ℕ) = 4 * 16385 := by norm_num
      rw [h65540]
      exact rotateN_four_mul hcycle 16385
  rw [hG, htot, insertIdx_eraseIdx _ _ _ hpc]
  have hplsame : ({ pl with available_pieces := pl.available_pieces } : Player) = pl := rfl
  rw [hplsame, set_get?_self _ _ _ hpl]

theorem C3_transactional_rejection_witness :
    gLine.place_piece 0 0 ⟨0, 1⟩ = some (Except.ok (false, gLine)) := by
  have hcan : gLine.board.piece_can_be_placed (rotateN 0 pieceLine) ⟨0, 1⟩
      gLine.players.active_player_index plLine.first_move = some false := by decide
  have h1 := game_place_rejected (i := 0) (r := 0)
    (rfl : gLine.players.players.get? gLine.players.active_player_index = some plLine)
    (rfl : plLine.available_pieces.get? 0 = some pieceLine)
    (board_place_of_can_false hcan)
  have h2 := C3_transactional_rejection gLine 0 0 ⟨0, 1⟩ _ plLine pieceLine
    (by norm_num) rfl rfl pieceLine_rotate4 h1
  rw [h1, h2]

/-! ### C6: rotation counts -/

/-- C6 (counterexample): with `rotations = 0` the claim demands
`(4 − 0) mod 4 = 0` restoring rotations before reinsertion, i.e. an unchanged
piece; the code rotates `4 - 0 = 4` times, which changes the saturating
piece's blocks. -/
theorem C6_rotation_counts_cex :
    gSat.place_piece 0 0 ⟨0, 1⟩ = some (Except.ok (false, gSatAfter)) ∧
    (gSatAfter.players.players.getD 0 playerDefault).available_pieces.map Piece.blocks
      ≠ [(rotateN ((4 - 0) % 4) pieceSat).blocks] := by
  refine ⟨gSat_place_eval, ?_⟩
  show [(rotateN 4 pieceSat).blocks] ≠ [(rotateN 0 pieceSat).blocks]
  rw [pieceSat_rotate4_blocks]
  decide

/-- C6 (amended): the taken piece is rotated exactly `rotations` times (not
`rotations mod 4`) before the board placement is attempted; on rejection it is
rotated forward `(4 − rotations) mod 2^16` further times — `4 − rotations`
when `rotations ≤ 4`, the `u16` wrap-around of a release build otherwise — and
reinserted at `piece_index`. -/
theorem C6_rotation_counts (g : Game) (i r : ℕ) (pos : Position) (g' : Game)
    (pl : Player) (piece0 : Piece)
    (hpl : g.players.players.get? g.players.active_player_index = some pl)
    (hpc : pl.available_pieces.get? i = some piece0)
    (hrej : g.place_piece i r pos = some (Except.ok (false, g'))) :
    g.board.place_piece (rotateN r piece0) pos g.players.active_player_index pl.first_move
      = some (Except.ok (g.board, some (rotateN r piece0))) ∧
    g' = { g with
      players := { g.players with
        players := g.players.players.set g.players.active_player_index
          { pl with available_pieces := ((pl.available_pieces.eraseIdx i).insertIdx i (rotateN (u16sub 4 r) (rotateN r piece0))) } } } := by
  obtain ⟨pl2, pc2, hpl2, hpc2, hcan, hG⟩ := game_place_rejected_inv hrej
  rw [hpl] at hpl2
  injection hpl2 with e1
  subst e1
  rw [hpc] at hpc2
  injection hpc2 with e2
  subst e2
  exact ⟨board_place_of_can_false hcan, hG⟩

theorem C6_rotation_counts_witness :
    gSat.board.place_piece (rotateN 0 pieceSat) ⟨0, 1⟩ gSat.players.active_player_index
      plSat.first_move = some (Except.ok (gSat.board, some (rotateN 0 pieceSat))) ∧
    gSatAfter = { gSat with
      players := { gSat.players with
        players := gSat.players.players.set gSat.players.active_player_index
          { plSat with available_pieces := ((plSat.available_pieces.eraseIdx 0).insertIdx 0 (rotateN (u16sub 4 0) (rotateN 0 pieceSat))) } } } :=
  C6_rotation_counts gSat 0 0 ⟨0, 1⟩ gSatAfter plSat pieceSat rfl rfl gSat_place_eval

/-! ### C5: turn advance -/

/-- C5 (counterexample): in a single-player game an accepted placement leaves
`active_player_index` unchanged (`(0+1) mod 1 = 0`), so "the index changes if
and only if the placement is accepted" fails. -/
theorem C5_turn_advance_cex :
    gSolo.place_piece 0 0 ⟨0, 0⟩ = some (Except.ok (true, gSoloAfter)) ∧
    gSoloAfter.players.active_player_index = gSolo.players.active_player_index :=
  ⟨rfl, rfl⟩

/-- C5 (amended): on acceptance the active player's `first_move` flag is
cleared, the piece is permanently removed from the inventory (not reinserted),
and the active index advances round-robin to `(i+1) mod N`; the index differs
from its previous value exactly when the game has at least two players, and a
rejected transaction never changes it. -/
theorem C5_turn_advance (g : Game) (i r : ℕ) (pos : Position) (pl : Player)
    (hpl : g.players.players.get? g.players.active_player_index = some pl) :
    (∀ g', g.place_piece i r pos = some (Except.ok (true, g')) →
      g'.players.active_player_index
          = (g.players.active_player_index + 1) % g.players.players.length ∧
      g'.players.players.get? g.players.active_player_index
          = some { pl with available_pieces := pl.available_pieces.eraseIdx i
                           first_move := false } ∧
      (2 ≤ g.players.players.length →
        g'.players.active_player_index ≠ g.players.active_player_index)) ∧
    (∀ g', g.place_piece i r pos = some (Except.ok (false, g')) →
      g'.players.active_player_index = g.players.active_player_index) := by
  constructor
  · intro g' hacc
    obtain ⟨pl2, pc2, b', hpl2, hpc2, hb, hG⟩ := game_place_accepted_inv hacc
    rw [hpl] at hpl2
    injection hpl2 with e1
    subst e1
    obtain ⟨hlt, _⟩ := List.get?_eq_some.1 hpl
    refine ⟨?_, ?_, ?_⟩
    · rw [hG]
      show (g.players.active_player_index + 1) % (g.players.players.set _ _).length = _
      rw [List.length_set]
    · rw [hG]
      show (g.players.players.set g.players.active_player_index _).get?
          g.players.active_player_index = _
      rw [List.get?_set_eq, hpl]
      rfl
    · intro hN
      rw [hG]
      show (g.players.active_player_index + 1) % (g.players.players.set _ _).length ≠ _
      rw [List.length_set]
      rcases Nat.lt_or_ge (g.players.active_player_index + 1) g.players.players.length
        with hlt1 | hge1
      · rw [Nat.mod_eq_of_lt hlt1]
        omega
      · have heq : g.players.active_player_index + 1 = g.players.players.length := by omega
        rw [heq, Nat.mod_self]
        omega
  · intro g' hrej
    obtain ⟨pl2, pc2, hpl2, hpc2, hcan, hG⟩ := game_place_rejected_inv hrej
    rw [hG]

theorem C5_turn_advance_witness :
    gDuoAfter.players.active_player_index
        = (gDuo.players.active_player_index + 1) % gDuo.players.players.length ∧
    gDuoAfter.players.players.get? gDuo.players.active_player_index
        = some { plA with available_pieces := plA.available_pieces.eraseIdx 0
                          first_move := false } ∧
    (2 ≤ gDuo.players.players.length →
      gDuoAfter.players.active_player_index ≠ gDuo.players.active_player_index) :=
  (C5_turn_advance gDuo 0 0 ⟨0, 0⟩ plA rfl).1 gDuoAfter (by rfl)

/-! ### C4: failure modes -/

theorem optionAll_some_true_iff {α : Type _} {f : α → Option Bool} {l : List α} :
    optionAll f l = some true ↔ ∀ a ∈ l, f a = some true := by
  induction l with
  | nil => simp [optionAll]
  | cons a l ih =>
    constructor
    · intro h
      have hfa : f a = some true := by
        unfold optionAll at h
        cases hfa : f a with
        | none => rw [hfa] at h; exact absurd h (by simp)
        | some v =>
          cases v with
          | false => rw [hfa] at h; exact absurd h (by simp)
          | true => rfl
      intro x hx
      rcases List.mem_cons.1 hx with rfl | hx'
      · exact hfa
      · unfold optionAll at h
        rw [hfa] at h
        exact ih.1 h x hx'
    · intro h
      unfold optionAll
      rw [h a (List.mem_cons_self a l)]
      exact ih.2 (fun x hx => h x (List.mem_cons_of_mem a hx))

theorem not_occupied_some_true_iff {b : Board} {p : Position} :
    b.block_position_is_not_occupied p = some true
      ↔ b.get_state_on_position p = Except.ok State.Free := by
  unfold Board.block_position_is_not_occupied
  cases h : b.get_state_on_position p with
  | error e => simp
  | ok s => cases s <;> simp

theorem blockGenerallyOk_true_elim {b : Board} {idx : ℕ} {p : Position}
    (h : b.blockGenerallyOk idx p = some true) :
    b.get_state_on_position p = Except.ok State.Free ∧
    b.block_is_not_adjacent_to_other_blocks_from_same_player p idx = some true := by
  unfold Board.blockGenerallyOk at h
  cases hA : b.block_position_is_not_occupied p with
  | none => rw [hA] at h; exact absurd h (by simp)
  | some v =>
    cases v with
    | false => rw [hA] at h; exact absurd h (by simp)
    | true =>
      rw [hA] at h
      exact ⟨not_occupied_some_true_iff.1 hA, h⟩

/-- A successful legality verdict demands all blocks pass the free-cell and
edge-adjacency scan. -/
theorem piece_can_true_all {b : Board} {pc : Piece} {off : Position} {idx : ℕ} {fr : Bool}
    (h : b.piece_can_be_placed pc off idx fr = some true) :
    ∀ p ∈ translatedBlocks pc off, b.blockGenerallyOk idx p = some true := by
  simp only [Board.piece_can_be_placed] at h
  cases hall : optionAll (fun pos => b.blockGenerallyOk idx pos)
      (pc.normalizedBlocks.map (fun blk => blk.add off)) with
  | none => rw [hall] at h; cases fr <;> simp at h
  | some can =>
    simp only [hall] at h
    have hcan : can = true := by
      cases fr with
      | true =>
        rw [if_pos rfl] at h
        cases hcorner : (pc.normalizedBlocks.map (fun blk => blk.add off)).any
            (fun pos => b.block_touches_corner pos) <;>
          rw [hcorner] at h <;> simp at h
        exact h
      | false =>
        rw [if_neg (by simp)] at h
        cases hany : optionAny
            (fun pos => b.block_is_diagonally_adjacent_to_block_from_same_player pos idx)
            (pc.normalizedBlocks.map (fun blk => blk.add off)) with
        | none => simp only [hany] at h; exact absurd h (by simp)
        | some d =>
          simp only [hany, Option.some.injEq, Bool.and_eq_true] at h
          exact h.2
    subst hcan
    exact fun p hp => optionAll_some_true_iff.1 hall p hp

/-! ### C9: cells never change owner -/

theorem get_state_err {b : Board} {p : Position} {e : String}
    (h : p.check_within_bounds b.width b.height = Except.error e) :
    b.get_state_on_position p = Except.error e := by
  unfold Board.get_state_on_position
  rw [h]

theorem get_state_okk {b : Board} {p : Position}
    (h : p.check_within_bounds b.width b.height = Except.ok ()) :
    b.get_state_on_position p
      = Except.ok (((b.tiles.get? p.y).bind (fun row => row.get? p.x)).getD State.Free) := by
  unfold Board.get_state_on_position
  rw [h]

theorem tiles_set_read {t : List (List State)} {q p : Position} {s : State}
    (hne : q ≠ p) :
    ((t.set q.y (((t.get? q.y).getD []).set q.x s)).get? p.y).bind (fun row => row.get? p.x)
      = (t.get? p.y).bind (fun row => row.get? p.x) := by
  by_cases hy : q.y = p.y
  · have hx : q.x ≠ p.x := by
      intro hx
      exact hne (by cases q; cases p; simp_all)
    rw [hy, List.get?_set_eq]
    cases hrow : t.get? p.y with
    | none => rfl
    | some row =>
      show ((row.set q.x s).get? p.x) = row.get? p.x
      exact List.get?_set_ne _ _ hx
  · rw [List.get?_set_ne _ _ hy]

theorem get_state_occupy_other {b : Board} {q p : Position} {idx : ℕ} (hne : q ≠ p) :
    (b.occupy_position q idx).get_state_on_position p = b.get_state_on_position p := by
  cases hchk : p.check_within_bounds b.width b.height with
  | error e =>
    rw [get_state_err (b := b.occupy_position q idx) hchk, get_state_err hchk]
  | ok u =>
    cases u
    rw [get_state_okk (b := b.occupy_position q idx) hchk, get_state_okk hchk]
    have ht : (b.occupy_position q idx).tiles
        = b.tiles.set q.y (((b.tiles.get? q.y).getD []).set q.x (State.Occupied idx)) := rfl
    rw [ht, tiles_set_read hne]

theorem foldl_occupy_preserves {idx i : ℕ} {p : Position} :
    ∀ (L : List Position) (bc : Board), (∀ q ∈ L, q ≠ p) →
      bc.get_state_on_position p = Except.ok (State.Occupied i) →
      (L.foldl (fun acc blk => acc.occupy_position blk idx) bc).get_state_on_position p
        = Except.ok (State.Occupied i)
  | [], _, _, hocc => hocc
  | q :: L, bc, hne, hocc => by
    show (L.foldl (fun acc blk => acc.occupy_position blk idx)
      (bc.occupy_position q idx)).get_state_on_position p = _
    refine foldl_occupy_preserves L _ (fun x hx => hne x (List.mem_cons_of_mem q hx)) ?_
    rw [get_state_occupy_other (hne q (List.mem_cons_self q L))]
    exact hocc

/-- A single normally-terminating `Board::place_piece` call never turns an
occupied cell free and never changes its owner: the legality scan demands
every written cell be `Free` beforehand. -/
theorem step_preserves_occupied {b b' : Board} (h : Board.Step b b') {p : Position} {i : ℕ}
    (hocc : b.get_state_on_position p = Except.ok (State.Occupied i)) :
    b'.get_state_on_position p = Except.ok (State.Occupied i) := by
  obtain ⟨pc, off, idx, fr, res, hpl⟩ := h
  cases res with
  | some ret =>
    obtain ⟨hcan, hbb, hret⟩ := board_place_rejected_inv hpl
    rw [hbb]
    exact hocc
  | none =>
    obtain ⟨hcan, hbb⟩ := board_place_accepted_inv hpl
    have hall := piece_can_true_all hcan
    have hfold : pc.normalizedBlocks.foldl
        (fun acc blk => acc.occupy_position (blk.add off) idx) b
        = (translatedBlocks pc off).foldl (fun acc blk => acc.occupy_position blk idx) b := by
      rw [translatedBlocks, List.foldl_map]
    rw [hbb, hfold]
    refine foldl_occupy_preserves (translatedBlocks pc off) b ?_ hocc
    intro q hq hqp
    have hfree := (blockGenerallyOk_true_elim (hall q hq)).1
    rw [hqp, hocc] at hfree
    exact absurd hfree (by simp)

/-- C9: on every board reachable from `Board::new` (all cells `Free`) by any
sequence of `place_piece` calls, a cell occupied by player `i` stays occupied
by player `i` across every further sequence of calls; hence no cell ever
transitions `Occupied(i) → Free` or `Occupied(i) → Occupied(j)` with `j ≠ i`,
and each cell transitions `Free → Occupied` at most once along any run. -/
theorem C9_cell_owner_monotone (w h : ℕ) (b b' : Board)
    (_hreach : Board.Steps (Board.new w h) b) (hsteps : Board.Steps b b')
    (p : Position) (i : ℕ)
    (hocc : b.get_state_on_position p = Except.ok (State.Occupied i)) :
    b'.get_state_on_position p = Except.ok (State.Occupied i) := by
  induction hsteps with
  | refl => exact hocc
  | tail hs hstep ih => exact step_preserves_occupied hstep ih

theorem C9_cell_owner_monotone_witness :
    bOcc2.get_state_on_position ⟨0, 0⟩ = Except.ok (State.Occupied 0) :=
  C9_cell_owner_monotone 2 2 bOcc bOcc2
    (Relation.ReflTransGen.single ⟨pieceDot, ⟨0, 0⟩, 0, true, none, by rfl⟩)
    (Relation.ReflTransGen.single ⟨pieceDot, ⟨1, 1⟩, 0, false, none, by rfl⟩)
    ⟨0, 0⟩ 0 (by rfl)

/-! ### C1: the placement legality predicate against the specification -/

theorem get_state_ok_of_inbounds {b : Board} {p : Position}
    (hx : p.x < b.width) (hy : p.y < b.height) :
    b.get_state_on_position p
      = Except.ok (((b.tiles.get? p.y).bind (fun row => row.get? p.x)).getD State.Free) := by
  apply get_state_okk
  unfold Position.check_within_bounds
  rw [if_neg (by omega)]

theorem inbounds_of_get_ok {b : Board} {p : Position} {s : State}
    (h : b.get_state_on_position p = Except.ok s) :
    p.x < b.width ∧ p.y < b.height := by
  by_cases hc : p.x ≥ b.width ∨ p.y ≥ b.height
  · rw [get_state_err (e := "Out of bounds (" ++ toString p.x ++ ", " ++ toString p.y ++ ")")
      (by unfold Position.check_within_bounds; rw [if_pos hc])] at h
    exact absurd h (by simp)
  · omega

theorem not_occupied_none_iff {b : Board} {p : Position} :
    b.block_position_is_not_occupied p = none
      ↔ ∃ e, b.get_state_on_position p = Except.error e := by
  unfold Board.block_position_is_not_occupied
  cases h : b.get_state_on_position p with
  | error e => simp
  | ok s => cases s <;> simp

theorem not_occupied_some_false_iff {b : Board} {p : Position} :
    b.block_position_is_not_occupied p = some false
      ↔ ∃ j, b.get_state_on_position p = Except.ok (State.Occupied j) := by
  unfold Board.block_position_is_not_occupied
  cases h : b.get_state_on_position p with
  | error e => simp
  | ok s => cases s <;> simp

/-- One guarded probe: it hits exactly when the guard holds and the neighbour
is occupied by the player; it never panics when the guard implies the
neighbour is on the grid. -/
theorem neighborHit_some_true_iff {b : Board} {g : Bool} {q : Position} {i : ℕ}
    (hq : g = true → q.x < b.width ∧ q.y < b.height) :
    (b.neighborHit g q i = some true
      ↔ (g = true ∧ b.get_state_on_position q = Except.ok (State.Occupied i))) ∧
    b.neighborHit g q i ≠ none := by
  unfold Board.neighborHit
  cases g with
  | false => simp
  | true =>
    rw [if_pos rfl]
    obtain ⟨hx, hy⟩ := hq rfl
    have hok := get_state_ok_of_inbounds hx hy
    rw [hok]
    cases hcell : ((b.tiles.get? q.y).bind (fun row => row.get? q.x)).getD State.Free with
    | Free => simp [hok, hcell]
    | Occupied j => simp [hok, hcell]

theorem option_bool_ne_none {c : Option Bool} (hc : c ≠ none) :
    c = some true ∨ c = some false := by
  cases c with
  | none => exact absurd rfl hc
  | some v => cases v <;> simp

/-- Sequencing with early `return true` (the diagonal scan). -/
theorem seqCheck_hit_iff {c rest : Option Bool} {P Q : Prop}
    (hc : c ≠ none) (hcp : c = some true ↔ P) (hrest : rest = some true ↔ Q)
    (hrne : rest ≠ none) :
    (seqCheck c true rest = some true ↔ (P ∨ Q)) ∧ seqCheck c true rest ≠ none := by
  unfold seqCheck
  cases c with
  | none => exact absurd rfl hc
  | some v =>
    cases v with
    | true =>
      refine ⟨⟨fun _ => Or.inl (hcp.1 rfl), fun _ => rfl⟩, by simp⟩
    | false =>
      refine ⟨?_, hrne⟩
      rw [hrest]
      constructor
      · exact Or.inr
      · rintro (hP | hQ)
        · exact absurd (hcp.2 hP) (by simp)
        · exact hQ

/-- Sequencing with early `return false` (the edge-adjacency scan). -/
theorem seqCheck_nohit_iff {c rest : Option Bool} {P Q : Prop}
    (hc : c ≠ none) (hcp : c = some true ↔ P) (hrest : rest = some true ↔ Q)
    (hrne : rest ≠ none) :
    (seqCheck c false rest = some true ↔ (¬P ∧ Q)) ∧ seqCheck c false rest ≠ none := by
  unfold seqCheck
  cases c with
  | none => exact absurd rfl hc
  | some v =>
    cases v with
    | true =>
      refine ⟨⟨fun h => absurd h (by simp), ?_⟩, by simp⟩
      rintro ⟨hnP, -⟩
      exact absurd (hcp.1 rfl) hnP
    | false =>
      refine ⟨?_, hrne⟩
      rw [hrest]
      constructor
      · intro hQ
        exact ⟨fun hP => absurd (hcp.2 hP) (by simp), hQ⟩
      · rintro ⟨-, hQ⟩
        exact hQ

/-- The edge-adjacency prohibition scan, characterised: for an on-grid block
it never panics, and it passes exactly when no existing orthogonal neighbour
is occupied by the same player. -/
theorem notadj_some_true_iff {b : Board} {p : Position} {idx : ℕ}
    (hx : p.x < b.width) (hy : p.y < b.height)
    (hw : b.width < 65536) (hh : b.height < 65536) :
    (b.block_is_not_adjacent_to_other_blocks_from_same_player p idx = some true ↔
      ((0 < p.x → b.get_state_on_position ⟨p.x - 1, p.y⟩ ≠ Except.ok (State.Occupied idx)) ∧
       (p.x + 1 < b.width → b.get_state_on_position ⟨p.x + 1, p.y⟩ ≠ Except.ok (State.Occupied idx)) ∧
       (0 < p.y → b.get_state_on_position ⟨p.x, p.y - 1⟩ ≠ Except.ok (State.Occupied idx)) ∧
       (p.y + 1 < b.height → b.get_state_on_position ⟨p.x, p.y + 1⟩ ≠ Except.ok (State.Occupied idx)))) ∧
    b.block_is_not_adjacent_to_other_blocks_from_same_player p idx ≠ none := by
  unfold Board.block_is_not_adjacent_to_other_blocks_from_same_player
  rw [u16sub_eq_sub (by omega) hw, u16sub_eq_sub (by omega) hh]
  have base : ((some true : Option Bool) = some true ↔ True) ∧ (some true : Option Bool) ≠ none := by
    simp
  have p1 := neighborHit_some_true_iff (b := b) (g := decide (0 < p.x))
    (q := ⟨p.x - 1, p.y⟩) (i := idx)
    (fun hg => ⟨show p.x - 1 < b.width by omega, show p.y < b.height by omega⟩)
  have p2 := neighborHit_some_true_iff (b := b) (g := decide (p.x < b.width - 1))
    (q := ⟨p.x + 1, p.y⟩) (i := idx)
    (fun hg => by
      simp only [decide_eq_true_eq] at hg
      exact ⟨show p.x + 1 < b.width by omega, show p.y < b.height by omega⟩)
  have p3 := neighborHit_some_true_iff (b := b) (g := decide (0 < p.y))
    (q := ⟨p.x, p.y - 1⟩) (i := idx)
    (fun hg => ⟨show p.x < b.width by omega, show p.y - 1 < b.height by omega⟩)
  have p4 := neighborHit_some_true_iff (b := b) (g := decide (p.y < b.height - 1))
    (q := ⟨p.x, p.y + 1⟩) (i := idx)
    (fun hg => by
      simp only [decide_eq_true_eq] at hg
      exact ⟨show p.x < b.width by omega, show p.y + 1 < b.height by omega⟩)
  have s4 := seqCheck_nohit_iff p4.2 p4.1 base.1 base.2
  have s3 := seqCheck_nohit_iff p3.2 p3.1 s4.1 s4.2
  have s2 := seqCheck_nohit_iff p2.2 p2.1 s3.1 s3.2
  have s1 := seqCheck_nohit_iff p1.2 p1.1 s2.1 s2.2
  refine ⟨s1.1.trans ?_, s1.2⟩
  simp only [decide_eq_true_eq]
  rw [show (p.x < b.width - 1) ↔ (p.x + 1 < b.width) from by omega,
    show (p.y < b.height - 1) ↔ (p.y + 1 < b.height) from by omega]
  simp only [not_and, and_true]

/-- The diagonal-adjacency scan, characterised: for an on-grid block it never
panics and it hits exactly when the specification's diagonal condition holds. -/
theorem diag_some_true_iff {b : Board} {p : Position} {idx : ℕ}
    (hx : p.x < b.width) (hy : p.y < b.height)
    (hw : b.width < 65536) (hh : b.height < 65536) :
    (b.block_is_diagonally_adjacent_to_block_from_same_player p idx = some true
      ↔ SpecDiag b idx p) ∧
    b.block_is_diagonally_adjacent_to_block_from_same_player p idx ≠ none := by
  unfold Board.block_is_diagonally_adjacent_to_block_from_same_player
  rw [u16sub_eq_sub (by omega) hw, u16sub_eq_sub (by omega) hh]
  have base : ((some false : Option Bool) = some true ↔ False) ∧ (some false : Option Bool) ≠ none := by
    simp
  have p1 := neighborHit_some_true_iff (b := b) (g := decide (0 < p.x ∧ 0 < p.y))
    (q := ⟨p.x - 1, p.y - 1⟩) (i := idx)
    (fun hg => ⟨show p.x - 1 < b.width by omega, show p.y - 1 < b.height by omega⟩)
  have p2 := neighborHit_some_true_iff (b := b) (g := decide (p.x < b.width - 1 ∧ 0 < p.y))
    (q := ⟨p.x + 1, p.y - 1⟩) (i := idx)
    (fun hg => by
      simp only [decide_eq_true_eq] at hg
      exact ⟨show p.x + 1 < b.width by omega, show p.y - 1 < b.height by omega⟩)
  have p3 := neighborHit_some_true_iff (b := b) (g := decide (0 < p.x ∧ p.y < b.height - 1))
    (q := ⟨p.x - 1, p.y + 1⟩) (i := idx)
    (fun hg => by
      simp only [decide_eq_true_eq] at hg
      exact ⟨show p.x - 1 < b.width by omega, show p.y + 1 < b.height by omega⟩)
  have p4 := neighborHit_some_true_iff (b := b)
    (g := decide (p.x < b.width - 1 ∧ p.y < b.height - 1))
    (q := ⟨p.x + 1, p.y + 1⟩) (i := idx)
    (fun hg => by
      simp only [decide_eq_true_eq] at hg
      exact ⟨show p.x + 1 < b.width by omega, show p.y + 1 < b.height by omega⟩)
  have s4 := seqCheck_hit_iff p4.2 p4.1 base.1 base.2
  have s3 := seqCheck_hit_iff p3.2 p3.1 s4.1 s4.2
  have s2 := seqCheck_hit_iff p2.2 p2.1 s3.1 s3.2
  have s1 := seqCheck_hit_iff p1.2 p1.1 s2.1 s2.2
  refine ⟨s1.1.trans ?_, s1.2⟩
  unfold SpecDiag
  simp only [decide_eq_true_eq]
  rw [show (p.x < b.width - 1) ↔ (p.x + 1 < b.width) from by omega,
    show (p.y < b.height - 1) ↔ (p.y + 1 < b.height) from by omega]
  simp only [and_assoc, or_false]

theorem touches_corner_iff {b : Board} {p : Position}
    (hx : p.x < b.width) (hy : p.y < b.height)
    (hw : b.width < 65536) (hh : b.height < 65536) :
    b.block_touches_corner p = true ↔ SpecCorner b p := by
  unfold Board.block_touches_corner SpecCorner
  rw [u16sub_eq_sub (by omega) hw, u16sub_eq_sub (by omega) hh]
  split_ifs with c1 c2 c3 c4 <;> simp_all

theorem blockGenerallyOk_of_parts {b : Board} {idx : ℕ} {p : Position}
    (hA : b.block_position_is_not_occupied p = some true)
    (hB : b.block_is_not_adjacent_to_other_blocks_from_same_player p idx = some true) :
    b.blockGenerallyOk idx p = some true := by
  unfold Board.blockGenerallyOk
  rw [hA]
  exact hB

/-- The per-block conjunct of the legality scan passes exactly when the
specification's free-cell and edge-adjacency condition holds for the block. -/
theorem blockGenerallyOk_iff_spec {b : Board} {idx : ℕ} {p : Position}
    (hw : b.width < 65536) (hh : b.height < 65536) :
    b.blockGenerallyOk idx p = some true ↔ SpecBlockOk b idx p := by
  constructor
  · intro h
    obtain ⟨hfree, hB⟩ := blockGenerallyOk_true_elim h
    obtain ⟨hx, hy⟩ := inbounds_of_get_ok hfree
    exact ⟨hfree, (notadj_some_true_iff hx hy hw hh).1.1 hB⟩
  · rintro ⟨hfree, hconds⟩
    obtain ⟨hx, hy⟩ := inbounds_of_get_ok hfree
    exact blockGenerallyOk_of_parts (not_occupied_some_true_iff.2 hfree)
      ((notadj_some_true_iff hx hy hw hh).1.2 hconds)

theorem optionAny_some_true_iff {α : Type _} {f : α → Option Bool} {l : List α}
    (hne : ∀ a ∈ l, f a ≠ none) :
    optionAny f l = some true ↔ ∃ a ∈ l, f a = some true := by
  induction l with
  | nil => simp [optionAny]
  | cons a l ih =>
    unfold optionAny
    cases hfa : f a with
    | none => exact absurd hfa (hne a (List.mem_cons_self a l))
    | some v =>
      cases v with
      | true =>
        constructor
        · intro _
          exact ⟨a, List.mem_cons_self a l, hfa⟩
        · intro _
          rfl
      | false =>
        rw [ih (fun x hx => hne x (List.mem_cons_of_mem a hx))]
        constructor
        · rintro ⟨x, hx, hfx⟩
          exact ⟨x, List.mem_cons_of_mem a hx, hfx⟩
        · rintro ⟨x, hx, hfx⟩
          rcases List.mem_cons.1 hx with rfl | hx'
          · rw [hfa] at hfx
            exact absurd hfx (by simp)
          · exact ⟨x, hx', hfx⟩

theorem board_accept_iff_can {b : Board} {pc : Piece} {off : Position} {idx : ℕ} {fr : Bool} :
    (∃ b', b.place_piece pc off idx fr = some (Except.ok (b', none)))
      ↔ b.piece_can_be_placed pc off idx fr = some true := by
  constructor
  · rintro ⟨b', hb⟩
    exact (board_place_accepted_inv hb).1
  · intro h
    exact ⟨_, board_place_of_can_true h⟩

theorem piece_can_true_iff_fr_true {b : Board} {pc : Piece} {off : Position} {idx : ℕ} :
    b.piece_can_be_placed pc off idx true = some true ↔
      (optionAll (fun pos => b.blockGenerallyOk idx pos) (translatedBlocks pc off) = some true ∧
       (translatedBlocks pc off).any (fun pos => b.block_touches_corner pos) = true) := by
  have hT : pc.normalizedBlocks.map (fun blk => blk.add off) = translatedBlocks pc off := rfl
  simp only [Board.piece_can_be_placed, hT]
  cases hall : optionAll (fun pos => b.blockGenerallyOk idx pos) (translatedBlocks pc off) with
  | none => simp
  | some can => cases can <;> simp

theorem piece_can_true_iff_fr_false {b : Board} {pc : Piece} {off : Position} {idx : ℕ} :
    b.piece_can_be_placed pc off idx false = some true ↔
      (optionAll (fun pos => b.blockGenerallyOk idx pos) (translatedBlocks pc off) = some true ∧
       optionAny (fun pos => b.block_is_diagonally_adjacent_to_block_from_same_player pos idx)
         (translatedBlocks pc off) = some true) := by
  have hT : pc.normalizedBlocks.map (fun blk => blk.add off) = translatedBlocks pc off := rfl
  simp only [Board.piece_can_be_placed, hT]
  cases hall : optionAll (fun pos => b.blockGenerallyOk idx pos) (translatedBlocks pc off) with
  | none => simp
  | some can =>
    cases hany : optionAny
        (fun pos => b.block_is_diagonally_adjacent_to_block_from_same_player pos idx)
        (translatedBlocks pc off) with
    | none => cases can <;> simp
    | some d => cases can <;> cases d <;> simp

/-- C1: `Board::place_piece` accepts a placement exactly when the
specification's condition holds: every block of the piece, translated by the
offset, lands on a Free cell none of whose existing orthogonal on-grid
neighbours is occupied by the same player index, AND — on the first round —
at least one translated block lies on one of the four grid corners, or — on
later rounds — at least one translated block is diagonally adjacent to a cell
already occupied by the same player index.  (`width` and `height` carry their
`u16` range as hypotheses.) -/
theorem C1_place_piece_iff (b : Board) (piece : Piece) (offset : Position)
    (player_index : ℕ) (first_round : Bool)
    (hw : b.width < 65536) (hh : b.height < 65536) :
    (∃ b', b.place_piece piece offset player_index first_round
        = some (Except.ok (b', none)))
      ↔ SpecLegal b piece offset player_index first_round := by
  rw [board_accept_iff_can]
  unfold SpecLegal
  cases first_round with
  | true =>
    rw [if_pos rfl, piece_can_true_iff_fr_true, optionAll_some_true_iff]
    constructor
    · rintro ⟨hall, hcorner⟩
      have hallspec : ∀ p ∈ translatedBlocks piece offset, SpecBlockOk b player_index p :=
        fun p hp => (blockGenerallyOk_iff_spec hw hh).1 (hall p hp)
      refine ⟨hallspec, ?_⟩
      rw [List.any_eq_true] at hcorner
      obtain ⟨p, hp, hc⟩ := hcorner
      obtain ⟨hx, hy⟩ := inbounds_of_get_ok (hallspec p hp).1
      exact ⟨p, hp, (touches_corner_iff hx hy hw hh).1 hc⟩
    · rintro ⟨hallspec, p, hp, hc⟩
      refine ⟨fun q hq => (blockGenerallyOk_iff_spec hw hh).2 (hallspec q hq), ?_⟩
      rw [List.any_eq_true]
      obtain ⟨hx, hy⟩ := inbounds_of_get_ok (hallspec p hp).1
      exact ⟨p, hp, (touches_corner_iff hx hy hw hh).2 hc⟩
  | false =>
    rw [if_neg (by simp), piece_can_true_iff_fr_false, optionAll_some_true_iff]
    constructor
    · rintro ⟨hall, hany⟩
      have hallspec : ∀ p ∈ translatedBlocks piece offset, SpecBlockOk b player_index p :=
        fun p hp => (blockGenerallyOk_iff_spec hw hh).1 (hall p hp)
      have hne : ∀ p ∈ translatedBlocks piece offset,
          b.block_is_diagonally_adjacent_to_block_from_same_player p player_index ≠ none := by
        intro p hp
        obtain ⟨hx, hy⟩ := inbounds_of_get_ok (hallspec p hp).1
        exact (diag_some_true_iff hx hy hw hh).2
      obtain ⟨p, hp, hd⟩ := (optionAny_some_true_iff hne).1 hany
      obtain ⟨hx, hy⟩ := inbounds_of_get_ok (hallspec p hp).1
      exact ⟨hallspec, p, hp, (diag_some_true_iff hx hy hw hh).1.1 hd⟩
    · rintro ⟨hallspec, p, hp, hd⟩
      have hne : ∀ q ∈ translatedBlocks piece offset,
          b.block_is_diagonally_adjacent_to_block_from_same_player q player_index ≠ none := by
        intro q hq
        obtain ⟨hx, hy⟩ := inbounds_of_get_ok (hallspec q hq).1
        exact (diag_some_true_iff hx hy hw hh).2
      refine ⟨fun q hq => (blockGenerallyOk_iff_spec hw hh).2 (hallspec q hq), ?_⟩
      obtain ⟨hx, hy⟩ := inbounds_of_get_ok (hallspec p hp).1
      exact (optionAny_some_true_iff hne).2 ⟨p, hp, (diag_some_true_iff hx hy hw hh).1.2 hd⟩

theorem C1_place_piece_iff_witness :
    (∃ b', (Board.new 3 3).place_piece pieceDot ⟨0, 0⟩ 0 true
        = some (Except.ok (b', none)))
      ↔ SpecLegal (Board.new 3 3) pieceDot ⟨0, 0⟩ 0 true :=
  C1_place_piece_iff (Board.new 3 3) pieceDot ⟨0, 0⟩ 0 true (by decide) (by decide)

end BlokusRust
